import Mathlib

/-!
Verification development for the WADL-to-Swagger converter
(`wadltools/swaggerconverter.py`).

The Python module is shallowly embedded: Python dictionaries become an
ordered association structure (`Dct`), exceptions become `Except`, and
in-place mutation of the generated document during `merge_dicts` is made
explicit with a state-passing variant (`mergeSt`) that returns the final
state of the first argument even when a conflict is raised.
-/

set_option maxHeartbeats 1000000

/-- Scalar leaf values stored in the swagger/defaults documents: strings,
integers and lists of strings (media-type lists such as `consumes`). -/
inductive Leaf where
  | str (s : String)
  | int (n : Int)
  | strlist (xs : List String)
deriving DecidableEq, Repr

mutual
/-- A Python value as seen by `merge_dicts`: either a scalar leaf or a
nested dictionary. -/
inductive Val where
  | leaf (l : Leaf)
  | dict (d : Dct)
deriving DecidableEq, Repr
/-- An ordered dictionary (Python `dict`/`OrderedDict`: insertion order,
new keys appended at the end). -/
inductive Dct where
  | nil
  | cons (k : String) (v : Val) (tl : Dct)
deriving DecidableEq, Repr
end

deriving instance DecidableEq for Except

/-- `key in a` / `a[key]` for the ordered dictionary: first matching entry. -/
def Dct.lookupd (k : String) : Dct → Option Val
  | .nil => none
  | .cons k' v tl => if k' = k then some v else Dct.lookupd k tl

/-- `a[key] = v` when `key` is already present: replace in place, keeping
the position (Python dict assignment on an existing key). -/
def Dct.updated (k : String) (v : Val) : Dct → Dct
  | .nil => .nil
  | .cons k' v' tl =>
    if k' = k then .cons k' v tl else .cons k' v' (Dct.updated k v tl)

/-- `a[key] = v` when `key` is absent: append at the end (Python dict
assignment on a new key preserves insertion order). -/
def Dct.appendd (k : String) (v : Val) : Dct → Dct
  | .nil => .cons k v .nil
  | .cons k' v' tl => .cons k' v' (Dct.appendd k v tl)

/-- Concatenation of two ordered dictionaries (used to talk about a
prefix of the keys iterated over by `merge_dicts`). -/
def Dct.catd : Dct → Dct → Dct
  | .nil, b => b
  | .cons k v tl, b => .cons k v (Dct.catd tl b)

/-- The keys of a dictionary, in insertion order. -/
def Dct.keysd : Dct → List String
  | .nil => []
  | .cons k _ tl => k :: Dct.keysd tl

/-- `isinstance(v, dict)`. -/
def Val.isDict : Val → Bool
  | .dict _ => true
  | .leaf _ => false

/-- `'.'.join(path)`. -/
def dotted (path : List String) : String :=
  String.intercalate "." path

/-- `merge_dicts(a, b, path)` from `swaggerconverter.py`: for each key of
`b` in order, copy absent keys into `a`, recurse on dict/dict entries,
ignore equal leaves, and raise `Conflict at <dotted path>` otherwise.
The Python function mutates `a` and returns it; here the returned
dictionary is the mutated `a`. -/
def merge_dicts (a b : Dct) (path : List String) : Except String Dct :=
  match b with
  | .nil => .ok a
  | .cons k vb tl =>
    match Dct.lookupd k a with
    | some va =>
      match va, vb with
      | .dict da, .dict db =>
        match merge_dicts da db (path ++ [k]) with
        | .ok m => merge_dicts (Dct.updated k (.dict m) a) tl path
        | .error e => .error e
      | _, _ =>
        if va = vb then merge_dicts a tl path
        else .error ("Conflict at " ++ dotted (path ++ [k]))
    | none => merge_dicts (Dct.appendd k vb a) tl path
termination_by sizeOf b
decreasing_by all_goals simp_wf <;> omega

/-- State-passing variant of `merge_dicts`: returns the final state of
the (mutated) `a` together with the raised conflict message, if any.
This mirrors the fact that the Python function updates `a` in place, so
on an exception the caller's dictionary is left partially merged. -/
def mergeSt (a b : Dct) (path : List String) : Dct × Option String :=
  match b with
  | .nil => (a, none)
  | .cons k vb tl =>
    match Dct.lookupd k a with
    | some va =>
      match va, vb with
      | .dict da, .dict db =>
        match mergeSt da db (path ++ [k]) with
        | (m, some e) => (Dct.updated k (.dict m) a, some e)
        | (m, none) => mergeSt (Dct.updated k (.dict m) a) tl path
      | _, _ =>
        if va = vb then mergeSt a tl path
        else (a, some ("Conflict at " ++ dotted (path ++ [k])))
    | none => mergeSt (Dct.appendd k vb a) tl path
termination_by sizeOf b
decreasing_by all_goals simp_wf <;> omega

/-- The `["application/json"]` default used for `consumes`/`produces`. -/
def appJson : Val := .leaf (.strlist ["application/json"])

/-- The seeding of the target document in `SwaggerConverter.convert`
(lines 61-76): `swagger`, `info`, `consumes`, `produces`, `paths` in
insertion order.  The `consumes`/`produces` pair is assigned inside one
`try` block, so a `KeyError` on either key makes the `except` branch
overwrite *both* with `["application/json"]`. -/
def seedSwagger (title : String) (defaults : Dct) : Dct :=
  let info : Val :=
    match Dct.lookupd "info" defaults with
    | some v => v
    | none =>
      .dict (.cons "title" (.leaf (.str title))
        (.cons "version" (.leaf (.str "Unknown")) .nil))
  let cp : Val × Val :=
    match Dct.lookupd "consumes" defaults, Dct.lookupd "produces" defaults with
    | some c, some p => (c, p)
    | _, _ => (appJson, appJson)
  .cons "swagger" (.leaf (.str "2.0"))
    (.cons "info" info
      (.cons "consumes" cp.1
        (.cons "produces" cp.2
          (.cons "paths" (.dict .nil) .nil))))

/-- `SwaggerConverter.convert` specialised to a WADL application with an
empty resource list: the document is seeded, the (empty) paths loop is
skipped, and the defaults overlay is merged in at the end (line 183). -/
def convertNoResources (title : String) (defaults : Dct) : Except String Dct :=
  merge_dicts (seedSwagger title defaults) defaults []

/-- Split a character list at every character satisfying `p`, keeping
empty fields (the behaviour of Python `str.split(sep)` for a one-character
separator, and the building block for no-argument `str.split()`). -/
def splitByP (p : Char → Bool) : List Char → List (List Char)
  | [] => [[]]
  | c :: tl =>
    if p c then [] :: splitByP p tl
    else
      match splitByP p tl with
      | h :: t => (c :: h) :: t
      | [] => [[c]]

/-- Python `s.split(sep)` for a one-character separator. -/
def pySplitOn (sep : Char) (s : String) : List String :=
  (splitByP (· == sep) s.data).map (fun l => String.mk l)

/-- A Swagger type produced by `xsd_to_json_type`: either a bare type
name or an inline schema fragment `\x7btype, format?\x7d`. -/
inductive JsonType where
  | name (s : String)
  | frag (ty : String) (format : Option String)
deriving DecidableEq, Repr

/-- The fixed `typemap` table of `SwaggerConverter.xsd_to_json_type`. -/
def typemap (ns ty : String) : Option JsonType :=
  if ns = "xsd" then
    match ty with
    | "boolean" => some (.name "boolean")
    | "int" => some (.name "integer")
    | "integer" => some (.name "integer")
    | "decimal" => some (.name "number")
    | "string" => some (.name "string")
    | "anyURI" => some (.frag "string" (some "uri"))
    | "dateTime" => some (.frag "string" (some "date-time"))
    | "date" => some (.name "string")
    | "time" => some (.name "string")
    | _ => none
  else if ns = "csapi" then
    match ty with
    | "UUID" => some (.frag "string" none)
    | _ => none
  else none

/-- `SwaggerConverter.xsd_to_json_type`.  `None` maps to `none`; a name
containing `:` is split and unpacked into `namespace, xsd_type` — with
two or more `:` separators the Python unpacking raises `ValueError`,
modelled as `.error ()`.  An empty or `xs` namespace is normalised to
`xsd`; an unknown namespace or local name yields `none`. -/
def xsd_to_json_type (full_type : Option String) : Except Unit (Option JsonType) :=
  match full_type with
  | none => .ok none
  | some ft =>
    match pySplitOn ':' ft with
    | [x] => .ok (typemap "xsd" x)
    | [ns, ty] => .ok (typemap (if ns = "" ∨ ns = "xs" then "xsd" else ns) ty)
    | _ => .error ()

/-- `SwaggerConverter.style_to_in`: dictionary lookup; an unlisted style
raises `KeyError`, modelled as `.error ()`. -/
def style_to_in (style : String) : Except Unit String :=
  match style with
  | "matrix" => .ok "unknown"
  | "query" => .ok "query"
  | "header" => .ok "header"
  | "template" => .ok "path"
  | "plain" => .ok "body"
  | _ => .error ()

/-- A source WADL parameter as read by `build_param`: name, required
flag, style, the optional `type` attribute, and the rendered doc text
(`none` when the doc tag is absent or empty). -/
structure WadlParam where
  name : String
  is_required : Bool
  style : String
  type_attr : Option String
  doc : Option String
deriving DecidableEq, Repr

/-- The Swagger parameter object built by `build_param`: the `in` field
is called `loc` (`in` is reserved in Lean); a schema fragment's fields
are flattened into `type`/`format` as `param.update` does. -/
structure Param where
  name : String
  required : Bool
  loc : String
  type : String
  format : Option String
  description : Option String
deriving DecidableEq, Repr

/-- `SwaggerConverter.build_param`.  `style_to_in` and
`xsd_to_json_type` errors propagate; an unknown type falls back to
`"string"` under autofix and to the raw declared type otherwise; under
autofix a `body` parameter is dropped (`none`) and a non-required `path`
parameter is forced to `required = true`; the description is attached
unless `nodoc` is set. -/
def build_param (autofix nodoc : Bool) (p : WadlParam) : Except Unit (Option Param) := do
  let loc ← style_to_in p.style
  let wadl_type := p.type_attr.getD "string"
  let json_type ← xsd_to_json_type (some wadl_type)
  let tyfmt : String × Option String :=
    match json_type with
    | none => (if autofix then "string" else wadl_type, none)
    | some (.name s) => (s, none)
    | some (.frag s f) => (s, f)
  if autofix && loc == "body" then
    return none
  let required := if autofix && loc == "path" && !p.is_required then true else p.is_required
  let descr := if nodoc then none else p.doc
  return some
    { name := p.name, required := required, loc := loc,
      type := tyfmt.1, format := tyfmt.2, description := descr }

/-- The parameter loop of `SwaggerConverter.convert` (lines 137-142):
build each parameter and append it to the operation's list only when
`build_param` did not return `None`. -/
def buildParamList (autofix nodoc : Bool) : List WadlParam → Except Unit (List Param)
  | [] => .ok []
  | p :: tl => do
    let q ← build_param autofix nodoc p
    let rest ← buildParamList autofix nodoc tl
    match q with
    | some param => .ok (param :: rest)
    | none => .ok rest

/-- A source WADL response as read by `build_response`: the raw `status`
attribute and the doc tag's text (`none` models a missing doc tag or
text, whose access raises and is caught by the bare `except`). -/
structure WadlResponse where
  status_attr : String
  doc : Option String
deriving DecidableEq, Repr

/-- Python `str.split()` with no arguments: split on runs of ASCII
whitespace, discarding empty fields. -/
def pyIsSpace (c : Char) : Bool :=
  c = ' ' ∨ c = '\t' ∨ c = '\n' ∨ c = '\r' ∨ c = '\x0b' ∨ c = '\x0c'

/-- Python `s.split()`. -/
def pySplit (s : String) : List String :=
  ((splitByP pyIsSpace s.data).filter (· ≠ [])).map (fun l => String.mk l)

/-- The Swagger response object built by `build_response`. -/
structure ResponseObj where
  description : String
deriving DecidableEq, Repr

/-- `SwaggerConverter.build_response`: the description is the
whitespace-normalised doc text; when reading the doc raises, the
fallback is `"<status attribute> response"` — note that `status` here is
the response element's *whole* `status` attribute string. -/
def build_response (r : WadlResponse) : ResponseObj :=
  { description :=
      match r.doc with
      | some t => String.intercalate " " (pySplit t)
      | none => r.status_attr ++ " response" }

/-- Decimal digits to a natural number. -/
def digitsToNat (ds : List Char) : Nat :=
  ds.foldl (fun n c => n * 10 + (c.toNat - 48)) 0

/-- Python `int(s)` on plain decimal literals, erring on non-numeric
input (`int()` raises `ValueError` there). -/
def pyInt (s : String) : Except Unit Int :=
  match s.data with
  | '-' :: ds =>
    if ds ≠ [] ∧ ds.all Char.isDigit then .ok (-(digitsToNat ds : Int)) else .error ()
  | ds =>
    if ds ≠ [] ∧ ds.all Char.isDigit then .ok ((digitsToNat ds : Int)) else .error ()

/-- The body of the response loop of `SwaggerConverter.convert` (lines
159-161): for each status token in order, `responses[int(status)]` is
set to `build_response(response)`. -/
def buildResponsesAux (r : WadlResponse) :
    List String → Except Unit (List (Int × ResponseObj))
  | [] => .ok []
  | st :: tl => do
    let n ← pyInt st
    let rest ← buildResponsesAux r tl
    .ok ((n, build_response r) :: rest)

/-- The response loop of `SwaggerConverter.convert` (lines 153-161): the
`status` attribute is whitespace-split and, for each status code,
`responses[int(status)]` is set to `build_response(response)`. -/
def buildResponses (r : WadlResponse) : Except Unit (List (Int × ResponseObj)) :=
  buildResponsesAux r (pySplit r.status_attr)

mutual
/-- A JSON value as produced by the external `json` library. -/
inductive Json where
  | null
  | jbool (b : Bool)
  | jnum (n : Int)
  | jstr (s : String)
  | jarr (xs : JArr)
  | jobj (xs : JObj)
deriving DecidableEq, Repr
/-- A JSON array. -/
inductive JArr where
  | nil
  | cons (hd : Json) (tl : JArr)
deriving DecidableEq, Repr
/-- A JSON object (ordered key/value pairs). -/
inductive JObj where
  | nil
  | cons (k : String) (v : Json) (tl : JObj)
deriving DecidableEq, Repr
end

/-- JSON whitespace skipping. -/
def skipWs : List Char → List Char
  | [] => []
  | c :: tl =>
    if c = ' ' ∨ c = '\t' ∨ c = '\n' ∨ c = '\r' then skipWs tl else c :: tl

/-- JSON string escape sequences (the ones exercised here). -/
def escChar (c : Char) : Option Char :=
  match c with
  | '"' => some '"'
  | '\\' => some '\\'
  | '/' => some '/'
  | 'n' => some '\n'
  | 't' => some '\t'
  | 'r' => some '\r'
  | _ => none

/-- Parse the body of a JSON string after the opening quote. -/
def parseStrChars : Nat → List Char → Option (List Char × List Char)
  | 0, _ => none
  | _, [] => none
  | _ + 1, '"' :: rest => some ([], rest)
  | fuel + 1, '\\' :: e :: rest =>
    match escChar e with
    | some c => (parseStrChars fuel rest).map (fun r => (c :: r.1, r.2))
    | none => none
  | fuel + 1, c :: rest =>
    (parseStrChars fuel rest).map (fun r => (c :: r.1, r.2))

/-- Parse a run of decimal digits as a natural number. -/
def parseNat (cs : List Char) : Option (Nat × List Char) :=
  let ds := cs.takeWhile Char.isDigit
  if ds = [] then none
  else some (ds.foldl (fun n c => n * 10 + (c.toNat - 48)) 0, cs.dropWhile Char.isDigit)

mutual
/-- Fuel-indexed recursive-descent parser for one JSON value.  Together
with `pyJsonLoads` below it models the external Python `json.loads` on
the fragment used by the converter's code samples (null, booleans,
integers, strings, arrays, objects); floats are not modelled. -/
def parseVal : Nat → List Char → Option (Json × List Char)
  | 0, _ => none
  | fuel + 1, cs =>
    match skipWs cs with
    | 'n' :: 'u' :: 'l' :: 'l' :: rest => some (.null, rest)
    | 't' :: 'r' :: 'u' :: 'e' :: rest => some (.jbool true, rest)
    | 'f' :: 'a' :: 'l' :: 's' :: 'e' :: rest => some (.jbool false, rest)
    | '"' :: rest =>
      (parseStrChars fuel rest).map (fun r => (.jstr (String.mk r.1), r.2))
    | '[' :: rest =>
      (match skipWs rest with
       | ']' :: r => some (.jarr .nil, r)
       | _ => (parseArrItems fuel rest).map (fun r => (.jarr r.1, r.2)))
    | '{' :: rest =>
      (match skipWs rest with
       | '}' :: r => some (.jobj .nil, r)
       | _ => (parseObjItems fuel rest).map (fun r => (.jobj r.1, r.2)))
    | '-' :: rest =>
      (parseNat rest).map (fun r => (.jnum (-(r.1 : Int)), r.2))
    | c :: rest =>
      if c.isDigit then (parseNat (c :: rest)).map (fun r => (.jnum (r.1 : Int), r.2))
      else none
    | [] => none

/-- Parse the comma-separated items of a non-empty JSON array. -/
def parseArrItems : Nat → List Char → Option (JArr × List Char)
  | 0, _ => none
  | fuel + 1, cs => do
    let (v, r1) ← parseVal fuel cs
    match skipWs r1 with
    | ',' :: r2 =>
      (parseArrItems fuel r2).map (fun r => (.cons v r.1, r.2))
    | ']' :: r2 => some (.cons v .nil, r2)
    | _ => none

/-- Parse the comma-separated members of a non-empty JSON object. -/
def parseObjItems : Nat → List Char → Option (JObj × List Char)
  | 0, _ => none
  | fuel + 1, cs =>
    match skipWs cs with
    | '"' :: r0 => do
      let (k, r1) ← parseStrChars fuel r0
      match skipWs r1 with
      | ':' :: r2 => do
        let (v, r3) ← parseVal fuel r2
        match skipWs r3 with
        | ',' :: r4 =>
          (parseObjItems fuel r4).map (fun r => (.cons (String.mk k) v r.1, r.2))
        | '}' :: r4 => some (.cons (String.mk k) v .nil, r4)
        | _ => none
      | _ => none
    | _ => none
end

/-- Model of the external Python `json.loads`: parse one JSON value and
require only trailing whitespace after it (`json.loads` rejects any
trailing garbage with a `ValueError`, modelled as `none`). -/
def pyJsonLoads (s : String) : Option Json :=
  match parseVal (2 * s.data.length + 4) s.data with
  | some (v, rest) => if skipWs rest = [] then some v else none
  | none => none

/-- `4 * d` spaces of indentation for `json.dumps(..., indent=4)`. -/
def pad (d : Nat) : String :=
  String.mk (List.replicate (4 * d) ' ')

/-- Serialise a string with JSON escapes. -/
def jsonQuote (s : String) : String :=
  "\"" ++ String.mk (s.data.foldr (fun c acc =>
    if c = '"' then '\\' :: '"' :: acc
    else if c = '\\' then '\\' :: '\\' :: acc
    else if c = '\n' then '\\' :: 'n' :: acc
    else if c = '\t' then '\\' :: 't' :: acc
    else if c = '\r' then '\\' :: 'r' :: acc
    else c :: acc) []) ++ "\""

mutual
/-- Model of `json.dumps(data, indent=4, separators=(',', ': '))` at
nesting depth `d`: scalars inline, non-empty containers one element per
line with four-space indentation. -/
def dumpsVal : Nat → Json → String
  | _, .null => "null"
  | _, .jbool true => "true"
  | _, .jbool false => "false"
  | _, .jnum n => toString n
  | _, .jstr s => jsonQuote s
  | d, .jarr xs =>
    match xs with
    | .nil => "[]"
    | _ => "[\n" ++ dumpsArr (d + 1) xs ++ "\n" ++ pad d ++ "]"
  | d, .jobj xs =>
    match xs with
    | .nil => "\x7b\x7d"
    | _ => "\x7b\n" ++ dumpsObj (d + 1) xs ++ "\n" ++ pad d ++ "\x7d"

/-- Array items of `dumpsVal`, one per line, comma-separated. -/
def dumpsArr : Nat → JArr → String
  | _, .nil => ""
  | d, .cons v .nil => pad d ++ dumpsVal d v
  | d, .cons v tl => pad d ++ dumpsVal d v ++ ",\n" ++ dumpsArr d tl

/-- Object members of `dumpsVal`, one per line, comma-separated. -/
def dumpsObj : Nat → JObj → String
  | _, .nil => ""
  | d, .cons k v .nil => pad d ++ jsonQuote k ++ ": " ++ dumpsVal d v
  | d, .cons k v tl => pad d ++ jsonQuote k ++ ": " ++ dumpsVal d v ++ ",\n" ++ dumpsObj d tl
end

/-- The pretty-printed sample of `build_code_sample`. -/
def dumps (v : Json) : String := dumpsVal 0 v

/-- Does the candidate suffix start with `\x7b` or `[`? -/
def startsBrace : List Char → Bool
  | c :: _ => c == '{' || c == '['
  | [] => false

/-- All suffixes of the input that start right after a newline, in
positional order (the positions where `^` can match under `re.MULTILINE`,
other than the start of the string). -/
def braceCands : List Char → List (List Char)
  | [] => []
  | c :: tl => (if c = '\n' then [tl] else []) ++ braceCands tl

/-- The group captured by `re.match(r'.*^([\x7b\[].*)\Z', s, MULTILINE |
DOTALL)` in `fix_json`: the greedy leading `.*` makes the engine pick the
*last* line-start whose first character is `\x7b` or `[`, and the group
extends to the end of the input. -/
def stripHeaderJson (s : String) : Option String :=
  (((s.data :: braceCands s.data).filter startsBrace).getLast?).map
    (fun l => String.mk l)

/-- `SwaggerConverter.fix_json`, with the external `json.loads` passed in
as `parse`.  On a parse failure with autofix on, the regex recovery is
attempted: if it matches, the stripped sample must parse (else the
`ValueError` propagates); if it does not match, the *original unparsable
sample is returned without error*.  With autofix off the `ValueError` is
re-raised. -/
def fix_json (parse : String → Option Json) (autofix : Bool)
    (json_sample : String) : Except Unit String :=
  match parse json_sample with
  | some _ => .ok json_sample
  | none =>
    if autofix then
      match stripHeaderJson json_sample with
      | some t =>
        match parse t with
        | some _ => .ok t
        | none => .error ()
      | none => .ok json_sample
    else .error ()

/-- `SwaggerConverter.build_code_sample`: parse the sample and store the
pretty-printed text under `application/json`; the bare `except` swallows
any parse failure, so an unparsable sample yields an *empty* examples
dictionary. -/
def build_code_sample (parse : String → Option Json) (s : String) :
    List (String × String) :=
  match parse s with
  | some v => [("application/json", dumps v)]
  | none => []

/-- `WADLParseError("Unparsable code sample", wadl_file, summary, e)`:
the wrapped error raised for an unparsable code sample.  The cause (the
`ValueError`) carries no payload in the model. -/
structure WADLParseErrorInfo where
  orig_message : String
  wadl_file : String
  location : String
  cause : Unit
deriving DecidableEq, Repr

/-- The code-sample handling of `SwaggerConverter.convert` (lines
163-182) for one status code, given the text of the last
`programlisting` block: run `fix_json`; on a `ValueError` either abort
(strict) or log and keep the original text; finally, if the (possibly
unfixed) text is truthy, set the response's `examples` key to
`build_code_sample`'s result.  `.ok none` means the response object has
no `examples` key; `.ok (some ex)` means `examples` is set to `ex`. -/
def processCodeSample (parse : String → Option Json) (autofix strict : Bool)
    (wadl_file summary : String) (s : String) :
    Except WADLParseErrorInfo (Option (List (String × String))) :=
  match fix_json parse autofix s with
  | .ok t =>
    if t = "" then .ok none else .ok (some (build_code_sample parse t))
  | .error _ =>
    if strict then
      .error { orig_message := "Unparsable code sample", wadl_file := wadl_file,
               location := summary, cause := () }
    else
      if s = "" then .ok none else .ok (some (build_code_sample parse s))

/-- The entries of a dictionary as a list of key/value pairs. -/
def Dct.entries : Dct → List (String × Val)
  | .nil => []
  | .cons k v tl => (k, v) :: Dct.entries tl

mutual
/-- Well-formedness of a value: nested dictionaries are well-formed. -/
def Val.wfv : Val → Bool
  | .leaf _ => true
  | .dict d => Dct.wfd d
/-- Well-formedness of a dictionary: keys are distinct at every level
(true of every Python `dict`). -/
def Dct.wfd : Dct → Bool
  | .nil => true
  | .cons k v tl => !(Dct.keysd tl).contains k && Val.wfv v && Dct.wfd tl
end

theorem lookupd_updated_ne (j k : String) (v : Val) (h : j ≠ k) :
    ∀ d : Dct, Dct.lookupd j (Dct.updated k v d) = Dct.lookupd j d
  | .nil => by simp [Dct.updated, Dct.lookupd]
  | .cons k' v' tl => by
    by_cases hk : k' = k
    · subst hk
      simp [Dct.updated, Dct.lookupd, Ne.symm h]
    · simp [Dct.updated, Dct.lookupd, hk, lookupd_updated_ne j k v h tl]

theorem lookupd_updated_self (k : String) (v : Val) :
    ∀ d : Dct, (Dct.lookupd k d).isSome →
      Dct.lookupd k (Dct.updated k v d) = some v
  | .nil => by simp [Dct.lookupd]
  | .cons k' v' tl => by
    by_cases hk : k' = k
    · subst hk
      simp [Dct.updated, Dct.lookupd]
    · simp [Dct.updated, Dct.lookupd, hk]
      exact lookupd_updated_self k v tl

theorem updated_of_lookupd_eq (k : String) (v : Val) :
    ∀ d : Dct, Dct.lookupd k d = some v → Dct.updated k v d = d
  | .nil => by simp [Dct.lookupd]
  | .cons k' v' tl => by
    by_cases hk : k' = k
    · subst hk
      simp only [Dct.lookupd, if_pos rfl, Dct.updated]
      intro h
      cases h
      simp
    · simp only [Dct.lookupd, if_neg hk, Dct.updated]
      intro h
      simp [hk, updated_of_lookupd_eq k v tl h]

theorem lookupd_appendd_ne (j k : String) (v : Val) (h : j ≠ k) :
    ∀ d : Dct, Dct.lookupd j (Dct.appendd k v d) = Dct.lookupd j d
  | .nil => by simp [Dct.appendd, Dct.lookupd, Ne.symm h]
  | .cons k' v' tl => by
    simp [Dct.appendd, Dct.lookupd, lookupd_appendd_ne j k v h tl]

theorem lookupd_appendd_self (k : String) (v : Val) :
    ∀ d : Dct, Dct.lookupd k d = none →
      Dct.lookupd k (Dct.appendd k v d) = some v
  | .nil => by simp [Dct.appendd, Dct.lookupd]
  | .cons k' v' tl => by
    simp only [Dct.lookupd, Dct.appendd]
    by_cases hk : k' = k
    · simp [hk]
    · simp only [if_neg hk]
      exact lookupd_appendd_self k v tl

theorem lookupd_isSome_iff_keysd (j : String) :
    ∀ d : Dct, (Dct.lookupd j d).isSome = true ↔ j ∈ Dct.keysd d
  | .nil => by simp [Dct.lookupd, Dct.keysd]
  | .cons k' v' tl => by
    simp only [Dct.lookupd, Dct.keysd, List.mem_cons]
    by_cases hk : k' = j
    · simp [hk]
    · simp [hk, Ne.symm hk, lookupd_isSome_iff_keysd j tl]

theorem lookupd_eq_none_of_not_mem_keysd (j : String) (d : Dct)
    (h : j ∉ Dct.keysd d) : Dct.lookupd j d = none := by
  cases hl : Dct.lookupd j d with
  | none => rfl
  | some v =>
    exact absurd ((lookupd_isSome_iff_keysd j d).1 (by simp [hl])) h

theorem wfd_cons {k : String} {v : Val} {tl : Dct}
    (h : Dct.wfd (.cons k v tl) = true) :
    k ∉ Dct.keysd tl ∧ Val.wfv v = true ∧ Dct.wfd tl = true := by
  simp only [Dct.wfd, Bool.and_eq_true, Bool.not_eq_true'] at h
  exact ⟨by simpa using h.1.1, h.1.2, h.2⟩

theorem entries_lookupd_of_wfd (k : String) (v : Val) :
    ∀ d : Dct, Dct.wfd d = true → (k, v) ∈ Dct.entries d →
      Dct.lookupd k d = some v
  | .nil => by simp [Dct.entries]
  | .cons k' v' tl => by
    intro hwf hmem
    obtain ⟨hk, _, htl⟩ := wfd_cons hwf
    simp only [Dct.entries, List.mem_cons] at hmem
    rcases hmem with heq | hmem
    · cases heq
      simp [Dct.lookupd]
    · have hne : k' ≠ k := by
        intro h
        subst h
        exact hk ((lookupd_isSome_iff_keysd k' tl).1
          (by simp [entries_lookupd_of_wfd k' v tl htl hmem]))
      simp [Dct.lookupd, hne, entries_lookupd_of_wfd k v tl htl hmem]

theorem sizeOf_of_mem_entries (k : String) (v : Val) :
    ∀ d : Dct, (k, v) ∈ Dct.entries d → sizeOf v < sizeOf d
  | .nil => by simp [Dct.entries]
  | .cons k' v' tl => by
    intro hmem
    simp only [Dct.entries, List.mem_cons] at hmem
    rcases hmem with heq | hmem
    · cases heq
      simp
      omega
    · have := sizeOf_of_mem_entries k v tl hmem
      simp
      omega

theorem wfv_of_mem_entries (k : String) (v : Val) :
    ∀ d : Dct, Dct.wfd d = true → (k, v) ∈ Dct.entries d → Val.wfv v = true
  | .nil => by simp [Dct.entries]
  | .cons k' v' tl => by
    intro hwf hmem
    obtain ⟨_, hv', htl⟩ := wfd_cons hwf
    simp only [Dct.entries, List.mem_cons] at hmem
    rcases hmem with heq | hmem
    · cases heq
      exact hv'
    · exact wfv_of_mem_entries k v tl htl hmem

theorem merge_lookupd_preserved (j : String) :
    ∀ (b a c : Dct) (path : List String),
      merge_dicts a b path = .ok c → j ∉ Dct.keysd b →
      Dct.lookupd j c = Dct.lookupd j a
  | .nil, a, c, path => by
    rw [merge_dicts]
    intro h _
    cases h
    rfl
  | .cons k vb tl, a, c, path => by
    intro hm hj
    simp only [Dct.keysd, List.mem_cons, not_or] at hj
    obtain ⟨hjk, hjtl⟩ := hj
    rw [merge_dicts] at hm
    cases hl : Dct.lookupd k a with
    | none =>
      simp only [hl] at hm
      rw [merge_lookupd_preserved j tl _ c path hm hjtl]
      exact lookupd_appendd_ne j k vb hjk a
    | some va =>
      simp only [hl] at hm
      cases va with
      | dict da =>
        cases vb with
        | dict db =>
          cases hmm : merge_dicts da db (path ++ [k]) with
          | ok m =>
            simp only [hmm] at hm
            rw [merge_lookupd_preserved j tl _ c path hm hjtl]
            exact lookupd_updated_ne j k _ hjk a
          | error e =>
            simp only [hmm] at hm
            cases hm
        | leaf lb =>
          simp at hm
      | leaf la =>
        cases vb with
        | dict db =>
          simp at hm
        | leaf lb =>
          simp only [] at hm
          by_cases hv : Val.leaf la = Val.leaf lb
          · rw [if_pos hv] at hm
            exact merge_lookupd_preserved j tl a c path hm hjtl
          · rw [if_neg hv] at hm
            cases hm

theorem merge_lookupd_isSome (j : String) :
    ∀ (b a c : Dct) (path : List String),
      merge_dicts a b path = .ok c →
      (Dct.lookupd j a).isSome = true ∨ j ∈ Dct.keysd b →
      (Dct.lookupd j c).isSome = true
  | .nil, a, c, path => by
    rw [merge_dicts]
    intro h hj
    cases h
    rcases hj with hj | hj
    · exact hj
    · simp [Dct.keysd] at hj
  | .cons k vb tl, a, c, path => by
    intro hm hj
    rw [merge_dicts] at hm
    have hstep : ∀ a' : Dct, merge_dicts a' tl path = .ok c →
        ((Dct.lookupd j a).isSome = true → (Dct.lookupd j a').isSome = true) →
        (j = k → (Dct.lookupd j a').isSome = true) →
        (Dct.lookupd j c).isSome = true := by
      intro a' hm' hpres hk
      rcases hj with hja | hjb
      · exact merge_lookupd_isSome j tl a' c path hm' (Or.inl (hpres hja))
      · simp only [Dct.keysd, List.mem_cons] at hjb
        rcases hjb with rfl | hjtl
        · exact merge_lookupd_isSome j tl a' c path hm' (Or.inl (hk rfl))
        · exact merge_lookupd_isSome j tl a' c path hm' (Or.inr hjtl)
    cases hl : Dct.lookupd k a with
    | none =>
      simp only [hl] at hm
      refine hstep _ hm ?_ ?_
      · intro hja
        by_cases hjk : j = k
        · subst hjk
          simp [hl] at hja
        · rw [lookupd_appendd_ne j k vb hjk a]
          exact hja
      · intro hjk
        subst hjk
        simp [lookupd_appendd_self j vb a hl]
    | some va =>
      simp only [hl] at hm
      cases va with
      | dict da =>
        cases vb with
        | dict db =>
          cases hmm : merge_dicts da db (path ++ [k]) with
          | ok m =>
            simp only [hmm] at hm
            refine hstep _ hm ?_ ?_
            · intro hja
              by_cases hjk : j = k
              · subst hjk
                simp [lookupd_updated_self j (.dict m) a (by simp [hl])]
              · rw [lookupd_updated_ne j k _ hjk a]
                exact hja
            · intro hjk
              subst hjk
              simp [lookupd_updated_self j (.dict m) a (by simp [hl])]
          | error e =>
            simp only [hmm] at hm
            cases hm
        | leaf lb =>
          simp at hm
      | leaf la =>
        cases vb with
        | dict db =>
          simp at hm
        | leaf lb =>
          simp only [] at hm
          by_cases hv : Val.leaf la = Val.leaf lb
          · rw [if_pos hv] at hm
            refine hstep _ hm (fun h => h) ?_
            intro hjk
            subst hjk
            simp [hl]
          · rw [if_neg hv] at hm
            cases hm

theorem merge_agree :
    ∀ (tl a : Dct) (path : List String),
      (∀ p ∈ Dct.entries tl, Dct.lookupd p.1 a = some p.2) →
      (∀ p ∈ Dct.entries tl, Val.wfv p.2 = true) →
      merge_dicts a tl path = .ok a
  | .nil, a, path => by
    intro _ _
    rw [merge_dicts]
  | .cons k v tl', a, path => by
    intro hagree hwf
    have hhd : (k, v) ∈ Dct.entries (.cons k v tl') := by
      simp [Dct.entries]
    have htla : ∀ p ∈ Dct.entries tl', Dct.lookupd p.1 a = some p.2 := by
      intro p hp
      exact hagree p (by simp [Dct.entries, hp])
    have htlw : ∀ p ∈ Dct.entries tl', Val.wfv p.2 = true := by
      intro p hp
      exact hwf p (by simp [Dct.entries, hp])
    have ha : Dct.lookupd k a = some v := hagree (k, v) hhd
    rw [merge_dicts]
    simp only [ha]
    cases v with
    | leaf lv =>
      simp [merge_agree tl' a path htla htlw]
    | dict dv =>
      have hwfdv : Dct.wfd dv = true := by
        have := hwf (k, .dict dv) hhd
        simpa [Val.wfv] using this
      have hself : merge_dicts dv dv (path ++ [k]) = .ok dv := by
        refine merge_agree dv dv (path ++ [k]) ?_ ?_
        · intro p hp
          cases p with
          | mk pk pv => exact entries_lookupd_of_wfd pk pv dv hwfdv hp
        · intro p hp
          cases p with
          | mk pk pv => exact wfv_of_mem_entries pk pv dv hwfdv hp
      simp only [hself]
      rw [updated_of_lookupd_eq k (.dict dv) a ha]
      exact merge_agree tl' a path htla htlw
termination_by tl => sizeOf tl
decreasing_by all_goals simp_wf <;> omega

theorem merge_self (d : Dct) (path : List String) (hwf : Dct.wfd d = true) :
    merge_dicts d d path = .ok d := by
  refine merge_agree d d path ?_ ?_
  · intro p hp
    cases p with
    | mk pk pv => exact entries_lookupd_of_wfd pk pv d hwf hp
  · intro p hp
    cases p with
    | mk pk pv => exact wfv_of_mem_entries pk pv d hwf hp

theorem merge_idem :
    ∀ (b a c : Dct) (path : List String),
      Dct.wfd b = true → merge_dicts a b path = .ok c →
      merge_dicts c b path = .ok c
  | .nil, a, c, path => by
    intro _ hm
    rw [merge_dicts] at hm
    cases hm
    rw [merge_dicts]
  | .cons k vb tl, a, c, path => by
    intro hwf hm
    obtain ⟨hk, hwv, hwtl⟩ := wfd_cons hwf
    rw [merge_dicts] at hm ⊢
    cases hl : Dct.lookupd k a with
    | none =>
      simp only [hl] at hm
      have hkc : Dct.lookupd k c = some vb := by
        rw [merge_lookupd_preserved k tl _ c path hm hk]
        exact lookupd_appendd_self k vb a hl
      simp only [hkc]
      cases vb with
      | dict db =>
        have hself : merge_dicts db db (path ++ [k]) = .ok db :=
          merge_self db (path ++ [k]) (by simpa [Val.wfv] using hwv)
        simp only [hself]
        rw [updated_of_lookupd_eq k (.dict db) c hkc]
        exact merge_idem tl _ c path hwtl hm
      | leaf lb =>
        simp [merge_idem tl _ c path hwtl hm]
    | some va =>
      simp only [hl] at hm
      cases va with
      | dict da =>
        cases vb with
        | dict db =>
          cases hmm : merge_dicts da db (path ++ [k]) with
          | ok m =>
            simp only [hmm] at hm
            have hkc : Dct.lookupd k c = some (.dict m) := by
              rw [merge_lookupd_preserved k tl _ c path hm hk]
              exact lookupd_updated_self k _ a (by simp [hl])
            simp only [hkc]
            have hmm2 : merge_dicts m db (path ++ [k]) = .ok m :=
              merge_idem db da m (path ++ [k]) (by simpa [Val.wfv] using hwv) hmm
            simp only [hmm2]
            rw [updated_of_lookupd_eq k (.dict m) c hkc]
            exact merge_idem tl _ c path hwtl hm
          | error e =>
            simp only [hmm] at hm
            cases hm
        | leaf lb =>
          simp at hm
      | leaf la =>
        cases vb with
        | dict db =>
          simp at hm
        | leaf lb =>
          simp only [] at hm
          by_cases hv : Val.leaf la = Val.leaf lb
          · rw [if_pos hv] at hm
            obtain rfl : la = lb := by injection hv
            have hkc : Dct.lookupd k c = some (.leaf la) := by
              rw [merge_lookupd_preserved k tl _ c path hm hk]
              exact hl
            simp only [hkc]
            simp [merge_idem tl a c path hwtl hm]
          · rw [if_neg hv] at hm
            cases hm
termination_by b => sizeOf b
decreasing_by all_goals simp_wf <;> omega

/-- The dotted key path `ks` names a genuine conflict between `a` and
`b`: following `ks` through both dictionaries ends at a pair of entries
that are unequal and not both dictionaries. -/
inductive ConflictAt : Dct → Dct → List String → Prop where
  | here {a b : Dct} {k : String} {va vb : Val} :
      Dct.lookupd k a = some va → Dct.lookupd k b = some vb →
      ¬(va.isDict = true ∧ vb.isDict = true) → va ≠ vb → ConflictAt a b [k]
  | nested {a b : Dct} {k : String} {da db : Dct} {p : List String} :
      Dct.lookupd k a = some (.dict da) → Dct.lookupd k b = some (.dict db) →
      ConflictAt da db p → ConflictAt a b (k :: p)

theorem conflictAt_congr_left {a' a c : Dct} {ks : List String}
    (h : ∀ j, (Dct.lookupd j c).isSome = true →
      Dct.lookupd j a' = Dct.lookupd j a)
    (hc : ConflictAt a' c ks) : ConflictAt a c ks := by
  cases hc with
  | here ha hb hnd hne =>
    rw [h _ (by simp [hb])] at ha
    exact .here ha hb hnd hne
  | nested ha hb hc' =>
    rw [h _ (by simp [hb])] at ha
    exact .nested ha hb hc'

theorem conflictAt_cons_right {a tl : Dct} {k : String} {vb : Val}
    {ks : List String} (hk : k ∉ Dct.keysd tl) (hc : ConflictAt a tl ks) :
    ConflictAt a (.cons k vb tl) ks := by
  have hlook : ∀ j (v : Val), Dct.lookupd j tl = some v →
      Dct.lookupd j (Dct.cons k vb tl) = some v := by
    intro j v hj
    have hjk : k ≠ j := by
      intro h
      subst h
      exact hk ((lookupd_isSome_iff_keysd k tl).1 (by simp [hj]))
    simp [Dct.lookupd, hjk, hj]
  cases hc with
  | here ha hb hnd hne => exact .here ha (hlook _ _ hb) hnd hne
  | nested ha hb hc' => exact .nested ha (hlook _ _ hb) hc'

theorem merge_conflict_error :
    ∀ (b a : Dct) (k : String) (va vb : Val) (path : List String),
      Dct.lookupd k a = some va → Dct.lookupd k b = some vb →
      ¬(va.isDict = true ∧ vb.isDict = true) → va ≠ vb →
      ∃ m, merge_dicts a b path = .error m
  | .nil, a, k, va, vb, path => by
    intro _ hb _ _
    simp [Dct.lookupd] at hb
  | .cons k' vb' tl, a, k, va, vb, path => by
    intro ha hb hnd hne
    rw [merge_dicts]
    by_cases hkk : k' = k
    · subst hkk
      obtain rfl : vb' = vb := by simpa [Dct.lookupd] using hb
      simp only [ha]
      cases va with
      | dict da =>
        cases vb' with
        | dict db => exact absurd ⟨rfl, rfl⟩ hnd
        | leaf lb => exact ⟨"Conflict at " ++ dotted (path ++ [k']), by simp⟩
      | leaf la =>
        cases vb' with
        | dict db => exact ⟨"Conflict at " ++ dotted (path ++ [k']), by simp⟩
        | leaf lb =>
          exact ⟨"Conflict at " ++ dotted (path ++ [k']), by simp [hne]⟩
    · have hbtl : Dct.lookupd k tl = some vb := by
        simpa [Dct.lookupd, hkk] using hb
      cases hl : Dct.lookupd k' a with
      | none =>
        simp only [hl]
        have ha' : Dct.lookupd k (Dct.appendd k' vb' a) = some va := by
          rw [lookupd_appendd_ne k k' vb' (fun h => hkk h.symm) a]
          exact ha
        exact merge_conflict_error tl _ k va vb path ha' hbtl hnd hne
      | some va' =>
        simp only [hl]
        cases va' with
        | dict da' =>
          cases vb' with
          | dict db' =>
            cases hmm : merge_dicts da' db' (path ++ [k']) with
            | ok m' =>
              simp only [hmm]
              have ha' : Dct.lookupd k (Dct.updated k' (.dict m') a) = some va := by
                rw [lookupd_updated_ne k k' _ (fun h => hkk h.symm) a]
                exact ha
              exact merge_conflict_error tl _ k va vb path ha' hbtl hnd hne
            | error e => exact ⟨e, by simp [hmm]⟩
          | leaf lb' =>
            exact ⟨"Conflict at " ++ dotted (path ++ [k']), by simp⟩
        | leaf la' =>
          cases vb' with
          | dict db' =>
            exact ⟨"Conflict at " ++ dotted (path ++ [k']), by simp⟩
          | leaf lb' =>
            by_cases hv : Val.leaf la' = Val.leaf lb'
            · obtain ⟨m, hm⟩ :=
                merge_conflict_error tl a k va vb path ha hbtl hnd hne
              exact ⟨m, by simp [hv, hm]⟩
            · exact ⟨"Conflict at " ++ dotted (path ++ [k']), by simp [hv]⟩

theorem merge_error_names_conflict :
    ∀ (b a : Dct) (path : List String) (m : String),
      Dct.wfd b = true → merge_dicts a b path = .error m →
      ∃ ks, ConflictAt a b ks ∧ m = "Conflict at " ++ dotted (path ++ ks)
  | .nil, a, path, m => by
    intro _ hm
    rw [merge_dicts] at hm
    cases hm
  | .cons k vb tl, a, path, m => by
    intro hwf hm
    obtain ⟨hk, hwv, hwtl⟩ := wfd_cons hwf
    have hbk : Dct.lookupd k (Dct.cons k vb tl) = some vb := by
      simp [Dct.lookupd]
    have htrans : ∀ a' : Dct,
        (∀ j, j ≠ k → Dct.lookupd j a' = Dct.lookupd j a) →
        merge_dicts a' tl path = .error m →
        ∃ ks, ConflictAt a (.cons k vb tl) ks ∧
          m = "Conflict at " ++ dotted (path ++ ks) := by
      intro a' hpres hm'
      obtain ⟨ks, hc, hmsg⟩ := merge_error_names_conflict tl a' path m hwtl hm'
      have hc' : ConflictAt a tl ks := by
        refine conflictAt_congr_left ?_ hc
        intro j hj
        refine hpres j ?_
        intro h
        subst h
        exact hk ((lookupd_isSome_iff_keysd j tl).1 hj)
      exact ⟨ks, conflictAt_cons_right hk hc', hmsg⟩
    rw [merge_dicts] at hm
    cases hl : Dct.lookupd k a with
    | none =>
      simp only [hl] at hm
      exact htrans _ (fun j hj => lookupd_appendd_ne j k vb hj a) hm
    | some va =>
      simp only [hl] at hm
      cases va with
      | dict da =>
        cases vb with
        | dict db =>
          cases hmm : merge_dicts da db (path ++ [k]) with
          | ok m' =>
            simp only [hmm] at hm
            exact htrans _ (fun j hj => lookupd_updated_ne j k _ hj a) hm
          | error e =>
            simp only [hmm] at hm
            cases hm
            obtain ⟨ks', hc', hmsg⟩ := merge_error_names_conflict db da
              (path ++ [k]) m (by simpa [Val.wfv] using hwv) hmm
            refine ⟨k :: ks', .nested hl hbk hc', ?_⟩
            rw [hmsg, List.append_assoc]
            rfl
        | leaf lb =>
          simp only [] at hm
          rw [if_neg (by simp)] at hm
          cases hm
          exact ⟨[k], .here hl hbk (by simp [Val.isDict]) (by simp), rfl⟩
      | leaf la =>
        cases vb with
        | dict db =>
          simp only [] at hm
          rw [if_neg (by simp)] at hm
          cases hm
          exact ⟨[k], .here hl hbk (by simp [Val.isDict]) (by simp), rfl⟩
        | leaf lb =>
          simp only [] at hm
          by_cases hv : Val.leaf la = Val.leaf lb
          · rw [if_pos hv] at hm
            exact htrans a (fun _ _ => rfl) hm
          · rw [if_neg hv] at hm
            cases hm
            exact ⟨[k], .here hl hbk (by simp [Val.isDict]) hv, rfl⟩
termination_by b => sizeOf b
decreasing_by all_goals simp_wf <;> omega

theorem mergeSt_of_merge_ok :
    ∀ (b a c : Dct) (path : List String),
      merge_dicts a b path = .ok c → mergeSt a b path = (c, none)
  | .nil, a, c, path => by
    intro hm
    rw [merge_dicts] at hm
    cases hm
    rw [mergeSt]
  | .cons k vb tl, a, c, path => by
    intro hm
    rw [merge_dicts] at hm
    rw [mergeSt]
    cases hl : Dct.lookupd k a with
    | none =>
      simp only [hl] at hm ⊢
      exact mergeSt_of_merge_ok tl _ c path hm
    | some va =>
      simp only [hl] at hm ⊢
      cases va with
      | dict da =>
        cases vb with
        | dict db =>
          cases hmm : merge_dicts da db (path ++ [k]) with
          | ok m =>
            simp only [hmm] at hm
            have hst : mergeSt da db (path ++ [k]) = (m, none) :=
              mergeSt_of_merge_ok db da m (path ++ [k]) hmm
            simp only [hst]
            exact mergeSt_of_merge_ok tl _ c path hm
          | error e =>
            simp only [hmm] at hm
            cases hm
        | leaf lb =>
          simp at hm
      | leaf la =>
        cases vb with
        | dict db =>
          simp at hm
        | leaf lb =>
          simp only [] at hm ⊢
          by_cases hv : Val.leaf la = Val.leaf lb
          · rw [if_pos hv] at hm
            rw [if_pos hv]
            exact mergeSt_of_merge_ok tl a c path hm
          · rw [if_neg hv] at hm
            cases hm
termination_by b => sizeOf b
decreasing_by all_goals simp_wf <;> omega

theorem mergeSt_cat :
    ∀ (b1 a b2 : Dct) (path : List String),
      mergeSt a (Dct.catd b1 b2) path =
        (match mergeSt a b1 path with
         | (a1, some e) => (a1, some e)
         | (a1, none) => mergeSt a1 b2 path)
  | .nil, a, b2, path => by
    conv_rhs => rw [mergeSt]
    rfl
  | .cons k vb tl, a, b2, path => by
    have hcat : Dct.catd (.cons k vb tl) b2 = .cons k vb (Dct.catd tl b2) := rfl
    rw [hcat]
    rw [mergeSt]
    conv_rhs => rw [mergeSt]
    cases hl : Dct.lookupd k a with
    | none =>
      simp only [hl]
      exact mergeSt_cat tl _ b2 path
    | some va =>
      simp only [hl]
      cases va with
      | dict da =>
        cases vb with
        | dict db =>
          cases hmm : mergeSt da db (path ++ [k]) with
          | mk m e =>
            cases e with
            | none =>
              simp only [hmm]
              exact mergeSt_cat tl _ b2 path
            | some msg =>
              simp only [hmm]
        | leaf lb =>
          rw [if_neg (by simp), if_neg (by simp)]
      | leaf la =>
        cases vb with
        | dict db =>
          rw [if_neg (by simp), if_neg (by simp)]
        | leaf lb =>
          by_cases hv : Val.leaf la = Val.leaf lb
          · rw [if_pos hv, if_pos hv]
            exact mergeSt_cat tl a b2 path
          · rw [if_neg hv, if_neg hv]

/-- One conflicting step of `mergeSt`: the state is returned unchanged
together with the conflict message. -/
theorem mergeSt_conflict_step (a1 tl : Dct) (k : String) (va vb : Val)
    (path : List String) (hl : Dct.lookupd k a1 = some va)
    (hnd : ¬(va.isDict = true ∧ vb.isDict = true)) (hne : va ≠ vb) :
    mergeSt a1 (.cons k vb tl) path =
      (a1, some ("Conflict at " ++ dotted (path ++ [k]))) := by
  rw [mergeSt]
  simp only [hl]
  cases va with
  | dict da =>
    cases vb with
    | dict db => exact absurd ⟨rfl, rfl⟩ hnd
    | leaf lb => simp
  | leaf la =>
    cases vb with
    | dict db => simp
    | leaf lb => simp [hne]

example :
    merge_dicts (.cons "a" (.leaf (.int 1)) .nil)
      (.cons "a" (.leaf (.int 2)) .nil) [] = .error "Conflict at a" := by
  simp [merge_dicts, Dct.lookupd]
  rfl

theorem splitByP_ne_nil (p : Char → Bool) : ∀ l : List Char, splitByP p l ≠ []
  | [] => by simp [splitByP]
  | c :: tl => by
    simp only [splitByP]
    by_cases hc : p c
    · simp [hc]
    · simp only [hc, if_false, Bool.false_eq_true]
      cases h : splitByP p tl with
      | nil => exact absurd h (splitByP_ne_nil p tl)
      | cons hd t => simp

theorem stripHeaderJson_ne_empty (s t : String)
    (h : stripHeaderJson s = some t) : t ≠ "" := by
  unfold stripHeaderJson at h
  rw [Option.map_eq_some'] at h
  obtain ⟨l, hl, rfl⟩ := h
  have hopt : l ∈ ((s.data :: braceCands s.data).filter startsBrace).getLast? := by
    simp [Option.mem_def, hl]
  have hmem : l ∈ (s.data :: braceCands s.data).filter startsBrace := by
    obtain ⟨hne, heq⟩ := List.mem_getLast?_eq_getLast hopt
    rw [heq]
    exact List.getLast_mem hne
  have hbrace : startsBrace l = true := (List.mem_filter.1 hmem).2
  cases l with
  | nil => simp [startsBrace] at hbrace
  | cons c cs =>
    intro he
    simp [String.ext_iff] at he

theorem buildResponsesAux_snd (r : WadlResponse) :
    ∀ (l : List String) (rs : List (Int × ResponseObj)),
      buildResponsesAux r l = .ok rs → ∀ pr ∈ rs, pr.2 = build_response r
  | [], rs => by
    intro h pr hpr
    simp only [buildResponsesAux] at h
    cases h
    simp at hpr
  | st :: tl, rs => by
    intro h pr hpr
    simp only [buildResponsesAux] at h
    cases hn : pyInt st with
    | error e =>
      simp [hn, Bind.bind, Except.bind] at h
    | ok n =>
      cases hr : buildResponsesAux r tl with
      | error e =>
        simp [hn, hr, Bind.bind, Except.bind] at h
      | ok rest =>
        simp only [hn, hr, Bind.bind, Except.bind] at h
        cases h
        rcases List.mem_cons.1 hpr with rfl | hpr'
        · rfl
        · exact buildResponsesAux_snd r tl rest hr pr hpr'

example : pyJsonLoads "garbage" = none := by decide

example :
    pyJsonLoads "\x7b\"id\":1\x7d" = some (.jobj (.cons "id" (.jnum 1) .nil)) := by
  decide

example :
    stripHeaderJson "X-Auth: abc\n\x7b\"id\":1\x7d" = some "\x7b\"id\":1\x7d" := by
  decide

example :
    build_param true false
      { name := "id", is_required := false, style := "template",
        type_attr := some "csapi:UUID", doc := none }
      = .ok (some { name := "id", required := true, loc := "path",
                    type := "string", format := none, description := none }) := by
  decide

/-- C4 counterexample: `xsd_to_json_type` is *not* total on strings with
two or more `:` separators — `"a:b:c"` makes the Python tuple unpacking
raise `ValueError` instead of returning a fragment or `None`. -/
theorem C4_mapType_counterexample :
    xsd_to_json_type (some "a:b:c") = .error ()
    ∧ xsd_to_json_type (some "a:b:c") ≠ .ok none := by
  constructor
  · decide
  · decide

/-- C4 (amended): `xsd_to_json_type` is pure and total on `None`, bare
names and strings with exactly one `:` separator, returning a type
fragment or `none` (unknown namespace or local name gives `none`); the
four documented examples hold.  Two or more `:` separators raise. -/
theorem C4_mapType_total_upto_one_colon :
    xsd_to_json_type none = .ok none
    ∧ xsd_to_json_type (some "xsd:int") = .ok (some (.name "integer"))
    ∧ xsd_to_json_type (some "csapi:UUID") = .ok (some (.frag "string" none))
    ∧ xsd_to_json_type (some "bogus:Foo") = .ok none
    ∧ ∀ s : String, (pySplitOn ':' s).length ≤ 2 →
        ∃ r, xsd_to_json_type (some s) = .ok r := by
  refine ⟨by decide, by decide, by decide, by decide, ?_⟩
  intro s hs
  have hdef : xsd_to_json_type (some s) =
      (match pySplitOn ':' s with
       | [x] => .ok (typemap "xsd" x)
       | [ns, ty] => .ok (typemap (if ns = "" ∨ ns = "xs" then "xsd" else ns) ty)
       | _ => .error ()) := rfl
  match hsp : pySplitOn ':' s with
  | [] =>
    have : splitByP (· == ':') s.data = [] := by
      have := congrArg List.length hsp
      simpa [pySplitOn] using this
    exact absurd this (splitByP_ne_nil _ s.data)
  | [x] =>
    rw [hdef, hsp]
    exact ⟨_, rfl⟩
  | [ns, ty] =>
    rw [hdef, hsp]
    exact ⟨_, rfl⟩
  | x :: y :: z :: rest =>
    rw [hsp] at hs
    simp at hs

/-- C4 witness: a one-colon input is handled without raising. -/
theorem C4_mapType_total_upto_one_colon_witness :
    (pySplitOn ':' "xs:string").length ≤ 2
    ∧ ∃ r, xsd_to_json_type (some "xs:string") = .ok r :=
  ⟨by decide, C4_mapType_total_upto_one_colon.2.2.2.2 "xs:string" (by decide)⟩

/-- C5 (confirmed): whenever a key is present in both dictionaries with
values that are unequal and not both mappings, the merge fails; every
failure message names a dotted key path at which a genuine conflict
exists; and merging `\x7ba: 1\x7d` with `\x7ba: 2\x7d` fails naming
path `"a"`. -/
theorem C5_merge_conflict_detection :
    (∀ (a b : Dct) (k : String) (va vb : Val),
        Dct.lookupd k a = some va → Dct.lookupd k b = some vb →
        ¬(va.isDict = true ∧ vb.isDict = true) → va ≠ vb →
        ∃ m, merge_dicts a b [] = .error m)
    ∧ (∀ (a b : Dct) (m : String), Dct.wfd b = true →
        merge_dicts a b [] = .error m →
        ∃ ks, ConflictAt a b ks ∧ m = "Conflict at " ++ dotted ks)
    ∧ merge_dicts (.cons "a" (.leaf (.int 1)) .nil)
        (.cons "a" (.leaf (.int 2)) .nil) [] = .error "Conflict at a" := by
  refine ⟨?_, ?_, ?_⟩
  · intro a b k va vb ha hb hnd hne
    exact merge_conflict_error b a k va vb [] ha hb hnd hne
  · intro a b m hwf hm
    simpa using merge_error_names_conflict b a [] m hwf hm
  · simp [merge_dicts, Dct.lookupd]
    rfl

/-- C5 witness: the general conflict lemmas applied at `\x7ba: 1\x7d`
versus `\x7ba: 2\x7d`. -/
theorem C5_merge_conflict_detection_witness :
    (∃ m, merge_dicts (.cons "a" (.leaf (.int 1)) .nil)
        (.cons "a" (.leaf (.int 2)) .nil) [] = .error m)
    ∧ (∃ ks, ConflictAt (.cons "a" (.leaf (.int 1)) .nil)
        (.cons "a" (.leaf (.int 2)) .nil) ks
        ∧ "Conflict at a" = "Conflict at " ++ dotted ks) :=
  ⟨C5_merge_conflict_detection.1 _ _ "a" (.leaf (.int 1)) (.leaf (.int 2))
      (by decide) (by decide) (by simp [Val.isDict]) (by decide),
   C5_merge_conflict_detection.2.1 _ _ "Conflict at a" (by decide)
      C5_merge_conflict_detection.2.2⟩

/-- C9 (confirmed): merge is idempotent absent conflicts — if merging
the overlay `b` (a Python dict, so with distinct keys at every level)
into `a` succeeds with result `c`, merging `b` into `c` again returns
`c` unchanged. -/
theorem C9_merge_idempotent (a b c : Dct) (hwf : Dct.wfd b = true)
    (hab : merge_dicts a b [] = .ok c) : merge_dicts c b [] = .ok c :=
  merge_idem b a c [] hwf hab

/-- C9 witness: idempotence at a concrete nested merge. -/
theorem C9_merge_idempotent_witness :
    Dct.wfd (.cons "b" (.dict (.cons "c" (.leaf (.int 2)) .nil)) .nil) = true
    ∧ merge_dicts (.cons "a" (.leaf (.int 1)) .nil)
        (.cons "b" (.dict (.cons "c" (.leaf (.int 2)) .nil)) .nil) []
        = .ok (.cons "a" (.leaf (.int 1))
            (.cons "b" (.dict (.cons "c" (.leaf (.int 2)) .nil)) .nil))
    ∧ merge_dicts (.cons "a" (.leaf (.int 1))
          (.cons "b" (.dict (.cons "c" (.leaf (.int 2)) .nil)) .nil))
        (.cons "b" (.dict (.cons "c" (.leaf (.int 2)) .nil)) .nil) []
        = .ok (.cons "a" (.leaf (.int 1))
            (.cons "b" (.dict (.cons "c" (.leaf (.int 2)) .nil)) .nil)) := by
  refine ⟨by decide, ?_, ?_⟩
  · simp [merge_dicts, Dct.lookupd, Dct.appendd]
  · exact C9_merge_idempotent (.cons "a" (.leaf (.int 1)) .nil)
      (.cons "b" (.dict (.cons "c" (.leaf (.int 2)) .nil)) .nil) _ (by decide)
      (by simp [merge_dicts, Dct.lookupd, Dct.appendd])

/-- C10 (confirmed): `merge_dicts` mutates its first argument and
returns that same mutated state (captured by the state-passing model
`mergeSt`), and it is not atomic on error — if the keys of the overlay
processed before a conflicting key `k` merge cleanly into `a` giving
`a1`, the raised conflict leaves the generated dictionary in state `a1`,
with every overlay key processed before the conflict already present. -/
theorem C10_merge_mutation_non_atomic :
    (∀ (a b c : Dct) (path : List String),
        merge_dicts a b path = .ok c → mergeSt a b path = (c, none))
    ∧ (∀ (a b1 a1 tl : Dct) (k : String) (va vb : Val) (path : List String),
        merge_dicts a b1 path = .ok a1 → Dct.lookupd k a1 = some va →
        ¬(va.isDict = true ∧ vb.isDict = true) → va ≠ vb →
        mergeSt a (Dct.catd b1 (.cons k vb tl)) path =
          (a1, some ("Conflict at " ++ dotted (path ++ [k]))))
    ∧ (∀ (a b c : Dct) (path : List String) (j : String),
        merge_dicts a b path = .ok c → j ∈ Dct.keysd b →
        (Dct.lookupd j c).isSome = true) := by
  refine ⟨?_, ?_, ?_⟩
  · intro a b c path h
    exact mergeSt_of_merge_ok b a c path h
  · intro a b1 a1 tl k va vb path hok hl hnd hne
    rw [mergeSt_cat b1 a (.cons k vb tl) path]
    rw [mergeSt_of_merge_ok b1 a a1 path hok]
    exact mergeSt_conflict_step a1 tl k va vb path hl hnd hne
  · intro a b c path j h hj
    exact merge_lookupd_isSome j b a c path h (Or.inr hj)

/-- C10 witness: merging `\x7by: 2, x: 3\x7d` into `\x7bx: 1\x7d` first
writes `y`, then raises the conflict at `x`, leaving the mutated state
`\x7bx: 1, y: 2\x7d`. -/
theorem C10_merge_mutation_non_atomic_witness :
    mergeSt (.cons "x" (.leaf (.int 1)) .nil)
      (Dct.catd (.cons "y" (.leaf (.int 2)) .nil)
        (.cons "x" (.leaf (.int 3)) .nil)) []
      = (.cons "x" (.leaf (.int 1)) (.cons "y" (.leaf (.int 2)) .nil),
         some ("Conflict at " ++ dotted ([] ++ ["x"])))
    ∧ mergeSt (.cons "x" (.leaf (.int 1)) .nil)
        (.cons "y" (.leaf (.int 2)) .nil) []
      = (.cons "x" (.leaf (.int 1)) (.cons "y" (.leaf (.int 2)) .nil), none)
    ∧ (Dct.lookupd "y"
        (.cons "x" (.leaf (.int 1)) (.cons "y" (.leaf (.int 2)) .nil))).isSome
        = true := by
  refine ⟨?_, ?_, ?_⟩
  · exact C10_merge_mutation_non_atomic.2.1 _ _ _ .nil "x"
      (.leaf (.int 1)) (.leaf (.int 3)) []
      (by simp [merge_dicts, Dct.lookupd, Dct.appendd])
      (by decide) (by simp [Val.isDict]) (by decide)
  · exact C10_merge_mutation_non_atomic.1 _ _ _ []
      (by simp [merge_dicts, Dct.lookupd, Dct.appendd])
  · exact C10_merge_mutation_non_atomic.2.2 (.cons "x" (.leaf (.int 1)) .nil)
      (.cons "y" (.leaf (.int 2)) .nil) _ [] "y"
      (by simp [merge_dicts, Dct.lookupd, Dct.appendd])
      (by simp [Dct.keysd])

theorem buildParamList_skip (autofix nodoc : Bool) (p : WadlParam)
    (h : build_param autofix nodoc p = .ok none) :
    ∀ ps1 ps2 : List WadlParam,
      buildParamList autofix nodoc (ps1 ++ p :: ps2)
        = buildParamList autofix nodoc (ps1 ++ ps2)
  | [], ps2 => by
    simp only [List.nil_append, buildParamList, h, Bind.bind, Except.bind]
    cases hr : buildParamList autofix nodoc ps2 <;> simp
  | q :: ps1', ps2 => by
    simp only [List.cons_append, buildParamList, List.append_eq]
    rw [buildParamList_skip autofix nodoc p h ps1' ps2]

/-- C2 counterexample: with autofix *off*, a non-required template-style
parameter is built with location `path` and `required = false` — the
required-forcing rule only runs under autofix, so the invariant does not
hold for every combination of the options. -/
theorem C2_path_required_counterexample :
    build_param false false
      { name := "id", is_required := false, style := "template",
        type_attr := none, doc := none }
      = .ok (some { name := "id", required := false, loc := "path",
                    type := "string", format := none, description := none })
    ∧ ({ name := "id", required := false, loc := "path", type := "string",
         format := none, description := none } : Param).loc = "path"
    ∧ ({ name := "id", required := false, loc := "path", type := "string",
         format := none, description := none } : Param).required ≠ true := by
  refine ⟨by decide, by decide, by decide⟩

/-- C2 (amended): *under autofix*, every parameter built by
`build_param` whose location is `path` has `required = true`, for every
source parameter and every `nodoc` setting. -/
theorem C2_path_required_under_autofix :
    ∀ (nodoc : Bool) (p : WadlParam) (q : Param),
      build_param true nodoc p = .ok (some q) → q.loc = "path" →
      q.required = true := by
  intro nodoc p q h hloc
  cases hst : style_to_in p.style with
  | error e =>
    simp [build_param, hst, Bind.bind, Except.bind] at h
  | ok loc =>
    cases hjt : xsd_to_json_type (some (p.type_attr.getD "string")) with
    | error e =>
      simp [build_param, hst, hjt, Bind.bind, Except.bind] at h
    | ok jt =>
      simp only [build_param, hst, hjt, Bind.bind, Except.bind] at h
      by_cases hb : loc == "body"
      · simp [hb, pure, Except.pure] at h
      · simp only [hb, Bool.true_and, if_false] at h
        simp [pure, Except.pure] at h
        subst h
        simp at hloc
        subst hloc
        cases hr : p.is_required <;> simp [hr]

/-- C2 witness: a non-required template parameter under autofix comes
out as a required path parameter. -/
theorem C2_path_required_under_autofix_witness :
    build_param true false
      { name := "id", is_required := false, style := "template",
        type_attr := none, doc := none }
      = .ok (some { name := "id", required := true, loc := "path",
                    type := "string", format := none, description := none })
    ∧ ({ name := "id", required := true, loc := "path", type := "string",
         format := none, description := none } : Param).required = true :=
  ⟨by decide,
   C2_path_required_under_autofix false
     { name := "id", is_required := false, style := "template",
       type_attr := none, doc := none }
     { name := "id", required := true, loc := "path", type := "string",
       format := none, description := none }
     (by decide) (by decide)⟩

/-- C7 counterexample: a body-style (`plain`) parameter whose declared
type has two `:` separators makes `build_param` raise (the type lookup
runs *before* the body-drop rule), so "no error raised" does not hold
for every plain parameter even under autofix. -/
theorem C7_body_param_counterexample :
    build_param true false
      { name := "b", is_required := false, style := "plain",
        type_attr := some "a:b:c", doc := none } = .error ()
    ∧ build_param true false
      { name := "b", is_required := false, style := "plain",
        type_attr := some "a:b:c", doc := none } ≠ .ok none := by
  refine ⟨by decide, by decide⟩

/-- C7 (amended): under autofix, every `plain`-style (body) parameter
whose declared type does not itself raise in `xsd_to_json_type` is
dropped: `build_param` returns `none` as a normal outcome, and the
operation's parameter list is exactly the list built without it. -/
theorem C7_body_param_dropped :
    ∀ (nodoc : Bool) (p : WadlParam) (r : Option JsonType),
      p.style = "plain" →
      xsd_to_json_type (some (p.type_attr.getD "string")) = .ok r →
      build_param true nodoc p = .ok none
      ∧ ∀ ps1 ps2 : List WadlParam,
          buildParamList true nodoc (ps1 ++ p :: ps2)
            = buildParamList true nodoc (ps1 ++ ps2) := by
  intro nodoc p r hp hjt
  have hst : style_to_in p.style = .ok "body" := by
    rw [hp]
    rfl
  have h1 : build_param true nodoc p = .ok none := by
    simp [build_param, hst, hjt, Bind.bind, Except.bind, pure, Except.pure]
  exact ⟨h1, buildParamList_skip true nodoc p h1⟩

/-- C7 witness: a concrete body parameter is dropped and leaves the
parameter list of the surrounding operation unchanged. -/
theorem C7_body_param_dropped_witness :
    build_param true false
      { name := "metadata", is_required := false, style := "plain",
        type_attr := none, doc := none } = .ok none
    ∧ buildParamList true false
        [{ name := "limit", is_required := false, style := "query",
           type_attr := some "xsd:int", doc := none },
         { name := "metadata", is_required := false, style := "plain",
           type_attr := none, doc := none }]
      = buildParamList true false
        [{ name := "limit", is_required := false, style := "query",
           type_attr := some "xsd:int", doc := none }] := by
  have h := C7_body_param_dropped false
    { name := "metadata", is_required := false, style := "plain",
      type_attr := none, doc := none }
    (some (.name "string")) rfl (by decide)
  refine ⟨h.1, ?_⟩
  have h2 := h.2
    [{ name := "limit", is_required := false, style := "query",
       type_attr := some "xsd:int", doc := none }] []
  simpa using h2

/-- C8 counterexample: for `status = "200 404"` with unusable
documentation, *both* responses get the fallback description
`"200 404 response"` (the whole `status` attribute), not
`"200 response"` and `"404 response"`. -/
theorem C8_response_description_counterexample :
    buildResponses { status_attr := "200 404", doc := none }
      = .ok [(200, { description := "200 404 response" }),
             (404, { description := "200 404 response" })]
    ∧ ("200 404 response" : String) ≠ "200 response"
    ∧ ("200 404 response" : String) ≠ "404 response" := by
  refine ⟨by decide, by decide, by decide⟩

/-- C8 (amended): every Response built for the status codes of a
response carries the same object returned by `build_response`; when the
documentation is unusable, each description falls back to
`"<whole status attribute> response"` — the same string for every code
in the whitespace-separated list. -/
theorem C8_response_description_fallback :
    ∀ (r : WadlResponse) (rs : List (Int × ResponseObj)),
      buildResponses r = .ok rs →
      (∀ pr ∈ rs, pr.2 = build_response r)
      ∧ (r.doc = none →
          ∀ pr ∈ rs, pr.2.description = r.status_attr ++ " response") := by
  intro r rs h
  have hall := buildResponsesAux_snd r (pySplit r.status_attr) rs h
  refine ⟨hall, ?_⟩
  intro hdoc pr hpr
  rw [hall pr hpr]
  simp [build_response, hdoc]

/-- C8 witness: the fallback description at `status = "200 404"`. -/
theorem C8_response_description_fallback_witness :
    buildResponses { status_attr := "200 404", doc := none }
      = .ok [(200, { description := "200 404 response" }),
             (404, { description := "200 404 response" })]
    ∧ ((200 : Int),
        ({ description := "200 404 response" } : ResponseObj)).2.description
      = "200 404" ++ " response" := by
  refine ⟨by decide, ?_⟩
  exact (C8_response_description_fallback
      { status_attr := "200 404", doc := none }
      [(200, { description := "200 404 response" }),
       (404, { description := "200 404 response" })]
      (by decide)).2 rfl
    ((200 : Int), { description := "200 404 response" }) (by decide)

/-- C1 counterexample: with autofix and strict both off, an unparsable
code sample still *sets* the `examples` key — `build_code_sample`
swallows the failure and returns an empty dictionary, so the response
object carries `examples = \x7b\x7d` rather than no key at all. -/
theorem C1_examples_key_counterexample :
    processCodeSample pyJsonLoads false false "api.wadl" "List servers"
      "garbage" = .ok (some [])
    ∧ (.ok (some ([] : List (String × String)))
        ≠ (.ok none :
            Except WADLParseErrorInfo (Option (List (String × String))))) := by
  refine ⟨by decide, by decide⟩

/-- C1 (amended): for an unparsable code sample with autofix off —
under strict mode the whole conversion aborts with a wrapped parse error
carrying the WADL file, the operation's summary as location and the
underlying cause; under non-strict mode the conversion succeeds and the
response's `examples` key is set to an *empty* mapping. -/
theorem C1_unparsable_sample_policy :
    ∀ (parse : String → Option Json) (wadl_file summary s : String),
      parse s = none → s ≠ "" →
      processCodeSample parse false true wadl_file summary s =
        .error { orig_message := "Unparsable code sample",
                 wadl_file := wadl_file, location := summary, cause := () }
      ∧ processCodeSample parse false false wadl_file summary s
          = .ok (some []) := by
  intro parse f summ s hp hs
  constructor
  · simp [processCodeSample, fix_json, hp]
  · simp [processCodeSample, fix_json, build_code_sample, hp, hs]

/-- C1 witness: the strict and non-strict outcomes at the concrete
unparsable sample `"garbage"`. -/
theorem C1_unparsable_sample_policy_witness :
    pyJsonLoads "garbage" = none
    ∧ processCodeSample pyJsonLoads false true "api.wadl" "List servers"
        "garbage"
      = .error { orig_message := "Unparsable code sample",
                 wadl_file := "api.wadl", location := "List servers",
                 cause := () }
    ∧ processCodeSample pyJsonLoads false false "api.wadl" "List servers"
        "garbage" = .ok (some []) := by
  have h := C1_unparsable_sample_policy pyJsonLoads "api.wadl" "List servers"
    "garbage" (by decide) (by decide)
  exact ⟨by decide, h.1, h.2⟩

/-- C6 counterexample: the regex strips to the *last* line starting
with `\x7b` or `[`, not the first — a JSON sample whose later lines
start with `[`, preceded by a non-JSON header, is stripped to the
suffix `"[2]]"` and fails to re-parse, so it is not recovered. -/
theorem C6_strip_first_counterexample :
    pyJsonLoads "X: y\n[[1],\n[2]]" = none
    ∧ pyJsonLoads "[[1],\n[2]]"
        = some (.jarr (.cons (.jarr (.cons (.jnum 1) .nil))
            (.cons (.jarr (.cons (.jnum 2) .nil)) .nil)))
    ∧ stripHeaderJson "X: y\n[[1],\n[2]]" = some "[2]]"
    ∧ fix_json pyJsonLoads true "X: y\n[[1],\n[2]]" = .error () := by
  refine ⟨by decide, by decide, by decide, by decide⟩

/-- C6 (amended): under autofix, an unparsable sample is stripped to
the suffix starting at the *last* line whose first character is `\x7b`
or `[` (the greedy match anchored to end-of-input); when that suffix
parses, it is the recovered sample and its pretty-printed form is
attached under `examples["application/json"]`. -/
theorem C6_autofix_strip_recovery :
    ∀ (parse : String → Option Json) (strict : Bool)
      (wadl_file summary s t : String) (v : Json),
      parse s = none → stripHeaderJson s = some t → parse t = some v →
      fix_json parse true s = .ok t
      ∧ processCodeSample parse true strict wadl_file summary s
          = .ok (some [("application/json", dumps v)]) := by
  intro parse strict f summ s t v hp hstrip hv
  have hfix : fix_json parse true s = .ok t := by
    simp [fix_json, hp, hstrip, hv]
  have ht : t ≠ "" := stripHeaderJson_ne_empty s t hstrip
  refine ⟨hfix, ?_⟩
  simp [processCodeSample, hfix, ht, build_code_sample, hv]

/-- C6 witness: the documented example — a sample with one leading
header line — is recovered and attached as an example. -/
theorem C6_autofix_strip_recovery_witness :
    pyJsonLoads "X-Auth: abc\n\x7b\"id\":1\x7d" = none
    ∧ stripHeaderJson "X-Auth: abc\n\x7b\"id\":1\x7d" = some "\x7b\"id\":1\x7d"
    ∧ pyJsonLoads "\x7b\"id\":1\x7d" = some (.jobj (.cons "id" (.jnum 1) .nil))
    ∧ fix_json pyJsonLoads true "X-Auth: abc\n\x7b\"id\":1\x7d"
        = .ok "\x7b\"id\":1\x7d"
    ∧ processCodeSample pyJsonLoads true false "api.wadl" "List servers"
        "X-Auth: abc\n\x7b\"id\":1\x7d"
      = .ok (some [("application/json",
          dumps (.jobj (.cons "id" (.jnum 1) .nil)))]) := by
  have h := C6_autofix_strip_recovery pyJsonLoads false "api.wadl"
    "List servers" "X-Auth: abc\n\x7b\"id\":1\x7d" "\x7b\"id\":1\x7d"
    (.jobj (.cons "id" (.jnum 1) .nil)) (by decide) (by decide) (by decide)
  exact ⟨by decide, by decide, by decide, h.1, h.2⟩

/-- C3 counterexample: with defaults defining `consumes = ["text/xml"]`
but no `produces`, the seeded `consumes` is `["application/json"]` (the
`except KeyError` branch overwrites it), not the defaults' value, and
the conversion then fails at the final merge with a conflict at
`consumes`. -/
theorem C3_consumes_counterexample :
    Dct.lookupd "consumes"
        (seedSwagger "Title"
          (.cons "consumes" (.leaf (.strlist ["text/xml"])) .nil))
      = some appJson
    ∧ appJson ≠ .leaf (.strlist ["text/xml"])
    ∧ convertNoResources "Title"
        (.cons "consumes" (.leaf (.strlist ["text/xml"])) .nil)
      = .error "Conflict at consumes" := by
  refine ⟨by decide, by decide, ?_⟩
  simp [convertNoResources, seedSwagger, merge_dicts, Dct.lookupd, appJson]
  rfl

/-- C3 (amended): the seeded `consumes`/`produces` take the defaults'
values only when *both* keys are present; if either is missing, both
are seeded to `["application/json"]`; consequently, defaults that
define a `consumes` different from `["application/json"]` but no
`produces` make the conversion fail at the final merge. -/
theorem C3_consumes_produces_seeding :
    ∀ (title : String) (d : Dct) (c p : Val),
      (Dct.lookupd "consumes" d = some c → Dct.lookupd "produces" d = some p →
        Dct.lookupd "consumes" (seedSwagger title d) = some c
        ∧ Dct.lookupd "produces" (seedSwagger title d) = some p)
      ∧ (Dct.lookupd "consumes" d = none ∨ Dct.lookupd "produces" d = none →
        Dct.lookupd "consumes" (seedSwagger title d) = some appJson
        ∧ Dct.lookupd "produces" (seedSwagger title d) = some appJson)
      ∧ (Dct.lookupd "consumes" d = some c → Dct.lookupd "produces" d = none →
        c ≠ appJson → ∃ m, convertNoResources title d = .error m) := by
  intro title d c p
  refine ⟨?_, ?_, ?_⟩
  · intro h1 h2
    constructor <;> simp [seedSwagger, Dct.lookupd, h1, h2]
  · intro h
    rcases h with h | h
    · cases hq : Dct.lookupd "produces" d with
      | none => constructor <;> simp [seedSwagger, Dct.lookupd, h, hq]
      | some vp => constructor <;> simp [seedSwagger, Dct.lookupd, h, hq]
    · cases hq : Dct.lookupd "consumes" d with
      | none => constructor <;> simp [seedSwagger, Dct.lookupd, h, hq]
      | some vc => constructor <;> simp [seedSwagger, Dct.lookupd, h, hq]
  · intro h1 h2 hne
    have hseed : Dct.lookupd "consumes" (seedSwagger title d) = some appJson := by
      simp [seedSwagger, Dct.lookupd, h1, h2]
    exact merge_conflict_error d (seedSwagger title d) "consumes" appJson c []
      hseed h1 (by simp [appJson, Val.isDict]) (fun he => hne he.symm)

/-- C3 witness: the amended behaviour at concrete defaults that define
`consumes` but not `produces`. -/
theorem C3_consumes_produces_seeding_witness :
    (Dct.lookupd "consumes"
        (seedSwagger "T" (.cons "consumes" (.leaf (.strlist ["text/xml"])) .nil))
      = some appJson
     ∧ Dct.lookupd "produces"
        (seedSwagger "T" (.cons "consumes" (.leaf (.strlist ["text/xml"])) .nil))
      = some appJson)
    ∧ (∃ m, convertNoResources "T"
        (.cons "consumes" (.leaf (.strlist ["text/xml"])) .nil) = .error m) := by
  have h := C3_consumes_produces_seeding "T"
    (.cons "consumes" (.leaf (.strlist ["text/xml"])) .nil)
    (.leaf (.strlist ["text/xml"])) appJson
  exact ⟨h.2.1 (Or.inr (by decide)), h.2.2 (by decide) (by decide) (by decide)⟩
